import Mathlib

/-!
Verification development for the advanced-zone-helper plugin.

The geometric core is embedded shallowly: coordinates are rationals
(the Python code computes with IEEE doubles; the rational embedding
performs the same field operations exactly), fallible control flow is
embedded with `Except`, and the external CAD process is abstracted as
an environment record supplying the outcome of every call that crosses
the process boundary.
-/

namespace ZoneHelper

/-- 2D point in millimeters (`Point` of the geometry package). -/
structure Point where
  x : ℚ
  y : ℚ
  deriving DecidableEq, Repr, Inhabited

/-- The closed tagged union of canonical primitives (`LineSegment`,
`Arc`, `Circle`, `Bezier` of the geometry package, as consumed by
`shape_extractor_ipc.py`). -/
inductive Primitive where
  | lineSegment (start stop : Point)
  | arc (start mid stop : Point)
  | circle (center : Point) (radius : ℚ)
  | bezier (start control1 control2 stop : Point)
  deriving DecidableEq, Repr, Inhabited

/-- Integer nanometer vector, the coordinate type of IPC `Vector2`
payloads. -/
structure Vec2 where
  x : ℤ
  y : ℤ
  deriving DecidableEq, Repr

/-- `ShapeExtractorIPC._nm_to_mm`: convert nanometers to millimeters. -/
def nm_to_mm (value_nm : ℤ) : ℚ :=
  (value_nm : ℚ) / 1000000

/-- `ShapeExtractorIPC._vector_to_point`: convert a `Vector2` to a
millimeter `Point`. -/
def vector_to_point (vec : Vec2) : Point :=
  ⟨nm_to_mm vec.x, nm_to_mm vec.y⟩

/-- `ShapeExtractorIPC._contour_to_segments`: convert one polygon
contour to line segments, skipping zero-length segments.  The Python
loop indexes `points[i]` and `points[(i + 1) % len(points)]`; the
embedding iterates over the same index range. -/
def contour_to_segments (points : List Point) : List Primitive :=
  (List.range points.length).filterMap fun i =>
    let start := points.getD i default
    let stop := points.getD ((i + 1) % points.length) default
    if (1 : ℚ) / 1000000 < |start.x - stop.x| ∨ (1 : ℚ) / 1000000 < |start.y - stop.y| then
      some (.lineSegment start stop)
    else
      none

/-- `ShapeExtractorIPC._extract_rectangle`, after the two nanometer
corners have been converted to millimeter points: four line segments
`tl → tr → br → bl → tl`. -/
def extract_rectangle (tl br : Point) : List Primitive :=
  let tr : Point := ⟨br.x, tl.y⟩
  let bl : Point := ⟨tl.x, br.y⟩
  [.lineSegment tl tr, .lineSegment tr br, .lineSegment br bl, .lineSegment bl tl]

/-- Python `round(x, 9)` used by `_primitive_key`, embedded as the
integer numerator of the coordinate scaled by `10 ^ 9`: two coordinates
have equal 9-decimal roundings exactly when these integers agree. -/
def round9 (q : ℚ) : ℤ :=
  round (q * 1000000000)

/-- Rounded-coordinate pair for one point, as used inside dedupe keys. -/
def roundPt (p : Point) : ℤ × ℤ :=
  (round9 p.x, round9 p.y)

/-- Lexicographic comparison Python applies when sorting the two
endpoint tuples of a line key (`tuple(sorted([a, b]))`). -/
def lexLe (a b : ℤ × ℤ) : Prop :=
  a.1 < b.1 ∨ (a.1 = b.1 ∧ a.2 ≤ b.2)

instance (a b : ℤ × ℤ) : Decidable (lexLe a b) := by
  unfold lexLe
  infer_instance

/-- `tuple(sorted([a, b]))` for two rounded coordinate pairs. -/
def sortPair (a b : ℤ × ℤ) : (ℤ × ℤ) × (ℤ × ℤ) :=
  if lexLe a b then (a, b) else (b, a)

/-- Dedupe keys produced by `ShapeExtractorIPC._primitive_key`.  The
Python `("unknown", repr(p))` branch is unreachable over the closed
primitive union and has no counterpart here. -/
inductive PrimitiveKey where
  | line (a b : ℤ × ℤ)
  | arcKey (a m b : ℤ × ℤ)
  | circleKey (c : ℤ × ℤ) (r : ℤ)
  | bezierKey (a c1 c2 b : ℤ × ℤ)
  deriving DecidableEq, Repr

/-- `ShapeExtractorIPC._primitive_key`: stable key for deduplicating
primitives; line keys are direction-independent. -/
def primitive_key : Primitive → PrimitiveKey
  | .lineSegment s e =>
      let p := sortPair (roundPt s) (roundPt e)
      .line p.1 p.2
  | .arc s m e => .arcKey (roundPt s) (roundPt m) (roundPt e)
  | .circle c r => .circleKey (roundPt c) (round9 r)
  | .bezier s c1 c2 e => .bezierKey (roundPt s) (roundPt c1) (roundPt c2) (roundPt e)

/-- `ShapeExtractorIPC._merge_primitives_without_duplicates`: start
from `base`, then append each element of `extra` whose key is not
already present.  The Python `seen` set always equals the key set of
the list built so far, so membership is tested against that list. -/
def merge_primitives_without_duplicates (base extra : List Primitive) : List Primitive :=
  extra.foldl
    (fun merged p =>
      if merged.any (fun q => decide (primitive_key q = primitive_key p)) then merged
      else merged ++ [p])
    base

/-- Structured form of one `(gr_...)` S-expression recovered by
`_split_gr_expressions` from the textual selection dump.  Each
constructor records exactly the data `_parse_gr_expression` reads from
that expression kind: the labelled points its regular expressions find
(`none` when the label is absent).  `grPoly` keeps the `(pts ...)`
blocks and the flat `(xy ...)` list of the whole expression, `grCurve`
covers both `gr_curve` and `gr_bezier`, and `grOther` stands for any
expression matching no branch. -/
inductive GrExpr where
  | grLine (start stop : Option Point)
  | grArc (start mid stop : Option Point)
  | grCircle (center stop : Option Point)
  | grRect (start stop : Option Point)
  | grPoly (ptsBlocks : List (List Point)) (allPts : List Point)
  | grCurve (pts : List Point)
  | grOther
  deriving DecidableEq, Repr, Inhabited

/-- `ShapeExtractorIPC._parse_gr_expression`: translate one `(gr_...)`
expression into primitives.  `sq` stands for `math.sqrt`, which is not
rational arithmetic; it only feeds the circle radius. -/
def parse_gr_expression (sq : ℚ → ℚ) : GrExpr → List Primitive
  | .grLine (some s) (some e) => [.lineSegment s e]
  | .grLine _ _ => []
  | .grArc (some s) (some m) (some e) => [.arc s m e]
  | .grArc _ _ _ => []
  | .grCircle (some c) (some rp) =>
      [.circle c (sq ((rp.x - c.x) * (rp.x - c.x) + (rp.y - c.y) * (rp.y - c.y)))]
  | .grCircle _ _ => []
  | .grRect (some s) (some e) =>
      let tl : Point := ⟨min s.x e.x, min s.y e.y⟩
      let br : Point := ⟨max s.x e.x, max s.y e.y⟩
      let tr : Point := ⟨br.x, tl.y⟩
      let bl : Point := ⟨tl.x, br.y⟩
      [.lineSegment tl tr, .lineSegment tr br, .lineSegment br bl, .lineSegment bl tl]
  | .grRect _ _ => []
  | .grPoly ptsBlocks allPts =>
      if ptsBlocks.isEmpty then
        if allPts.length < 3 then [] else contour_to_segments allPts
      else
        (ptsBlocks.filter (fun b => decide (3 ≤ b.length))).flatMap contour_to_segments
  | .grCurve (p0 :: p1 :: p2 :: p3 :: _) => [.bezier p0 p1 p2 p3]
  | .grCurve _ => []
  | .grOther => []

/-- Abstraction of one selected board item as typed by
`extract_from_selection`'s dispatch on `type(item).__name__`.  The
geometric payloads are the attributes each `_extract_*` helper reads
(nanometer vectors for shapes, already-converted contours for the
polygon paths); `unknownWithPolygon` is an unrecognised item on which
the polygon fallback finds contours, `unknownItem` one on which it
finds none. -/
inductive Item where
  | boardRectangle (top_left bottom_right : Vec2)
  | boardCircle (center radius_point : Vec2)
  | boardArc (start mid stop : Vec2)
  | boardLine (start stop : Vec2)
  | boardPolygon (contours : List (List Point))
  | boardBezier (start control1 control2 stop : Vec2)
  | unknownWithPolygon (contours : List (List Point))
  | unknownItem
  deriving DecidableEq, Repr

/-- `ShapeExtractorIPC._extract_polygon` after contour recovery: keep
contours with at least three points and segment each one. -/
def extract_polygon (contours : List (List Point)) : List Primitive :=
  (contours.filter (fun c => decide (3 ≤ c.length))).flatMap contour_to_segments

/-- `ShapeExtractorIPC._extract_circle`: radius is the distance from
center to radius point (`sq` stands for `math.sqrt`). -/
def extract_circle (sq : ℚ → ℚ) (center radius_point : Vec2) : Primitive :=
  let c := vector_to_point center
  let rp := vector_to_point radius_point
  .circle c (sq ((rp.x - c.x) * (rp.x - c.x) + (rp.y - c.y) * (rp.y - c.y)))

/-- The per-item dispatch of `extract_from_selection` (lines 42-68). -/
def extract_item (sq : ℚ → ℚ) : Item → List Primitive
  | .boardRectangle tl br => extract_rectangle (vector_to_point tl) (vector_to_point br)
  | .boardCircle c rp => [extract_circle sq c rp]
  | .boardArc s m e => [.arc (vector_to_point s) (vector_to_point m) (vector_to_point e)]
  | .boardLine s e => [.lineSegment (vector_to_point s) (vector_to_point e)]
  | .boardPolygon contours => extract_polygon contours
  | .boardBezier s c1 c2 e =>
      [.bezier (vector_to_point s) (vector_to_point c1) (vector_to_point c2) (vector_to_point e)]
  | .unknownWithPolygon contours => extract_polygon contours
  | .unknownItem => []

/-- `ShapeExtractorIPC.extract_from_selection`: dispatch over the
selected items, merge in the selection-string fallback primitives, and
dedupe; with no selected items the selection-string fallback result is
returned directly. -/
def extract_from_selection (sq : ℚ → ℚ) (selected_items : List Item)
    (fallback_exprs : List GrExpr) : List Primitive :=
  if selected_items.isEmpty then
    fallback_exprs.flatMap (parse_gr_expression sq)
  else
    let primitives := selected_items.flatMap (extract_item sq)
    let fallback_primitives := fallback_exprs.flatMap (parse_gr_expression sq)
    merge_primitives_without_duplicates []
      (merge_primitives_without_duplicates primitives fallback_primitives)

/-- Modelled from the spec: non-fatal diagnostics of the pipeline
(§7 error taxonomy); the excerpt contains none of the core geometry
modules, only their callers. -/
inductive Diagnostic where
  | degenerateArc
  deriving DecidableEq, Repr

/-- Modelled from the spec: determinant of the two
perpendicular-bisector equations the arc approximator solves for the
circumcircle center of `Arc(start, mid, end)` (§4.2); the system is
`2(mid-start)·c = ...`, `2(end-start)·c = ...`, so the determinant is
`4((mid.x-start.x)(end.y-start.y) - (end.x-start.x)(mid.y-start.y))`. -/
def arcDet (s m e : Point) : ℚ :=
  4 * ((m.x - s.x) * (e.y - s.y) - (e.x - s.x) * (m.y - s.y))

/-- Modelled from the spec: `ArcApproximator.approximate` (§4.2);
`arc_approximator.py` is not in the excerpt.  `area_eps` is `AREA_EPS`;
trigonometric sampling of a non-degenerate curve is not rational
arithmetic and is abstracted as the `curveSample` argument, while the
collinear-arc fallback branch is modelled exactly: three points
collinear within `AREA_EPS` yield `[start, end]` plus a non-fatal
`DegenerateArc` diagnostic. -/
def approximate (area_eps : ℚ) (curveSample : Primitive → List Point) :
    Primitive → List Point × List Diagnostic
  | .lineSegment s e => ([s, e], [])
  | .arc s m e =>
      if |arcDet s m e| ≤ area_eps then ([s, e], [.degenerateArc])
      else (curveSample (.arc s m e), [])
  | p => (curveSample p, [])

/-- Modelled from the spec: snap-bucketing of a coordinate pair at
`SNAP_EPS` resolution into a canonical vertex identity (§4.3 step 1,
§9: rounding coordinates to a grid keyed by ε). -/
def snapKey (snap_eps : ℚ) (p : Point) : ℤ × ℤ :=
  (round (p.x / snap_eps), round (p.y / snap_eps))

/-- Modelled from the spec: the two canonical endpoint vertices a
primitive contributes as a graph edge (§4.3 step 2).  A circle has no
endpoints; it enters the graph as a self-loop at its seam point
`(center.x + radius, center.y)` and therefore closes into a
single-primitive loop on its own. -/
def endpointsOf (snap_eps : ℚ) : Primitive → (ℤ × ℤ) × (ℤ × ℤ)
  | .lineSegment s e => (snapKey snap_eps s, snapKey snap_eps e)
  | .arc s _ e => (snapKey snap_eps s, snapKey snap_eps e)
  | .bezier s _ _ e => (snapKey snap_eps s, snapKey snap_eps e)
  | .circle c r =>
      let seam : Point := ⟨c.x + r, c.y⟩
      (snapKey snap_eps seam, snapKey snap_eps seam)

/-- One edge of the loop detector's multigraph: the primitive together
with its two canonical endpoint vertices. -/
structure Edge where
  v1 : ℤ × ℤ
  v2 : ℤ × ℤ
  prim : Primitive
  deriving DecidableEq, Repr

/-- Whether an edge touches the vertex `w`. -/
def incident (w : ℤ × ℤ) (e : Edge) : Prop :=
  e.v1 = w ∨ e.v2 = w

instance (w : ℤ × ℤ) (e : Edge) : Decidable (incident w e) := by
  unfold incident
  infer_instance

/-- The endpoint of `e` reached when entering from vertex `w`. -/
def otherEnd (w : ℤ × ℤ) (e : Edge) : ℤ × ℤ :=
  if e.v1 = w then e.v2 else e.v1

/-- Outcome of one walk of the loop detector: a closed loop, or an
abortive walk whose traversed primitives are discarded; both carry the
edges still unvisited. -/
inductive WalkResult where
  | closed (path : List Primitive) (unvisited : List Edge)
  | failed (discarded : ℕ) (unvisited : List Edge)
  deriving DecidableEq, Repr

/-- Modelled from the spec: one walk of `detect_loops` (§4.3 step 3).
From the current vertex, follow the unique unvisited edge until the
start vertex closes the loop, a vertex with no unvisited edge kills the
walk (dead end), or a vertex with more than one unvisited edge kills it
(unsupported branch, §4.3 step 4); a killed walk discards every
primitive it traversed.  `fuel` bounds the recursion; one unvisited
edge is consumed per step, so any `fuel ≥ unvisited.length` is exact. -/
def walk (start : ℤ × ℤ) : ℕ → (ℤ × ℤ) → List Edge → List Primitive → WalkResult
  | 0, current, unvisited, path =>
      if current = start then .closed path unvisited
      else .failed path.length unvisited
  | fuel + 1, current, unvisited, path =>
      if current = start then .closed path unvisited
      else
        match unvisited.filter (fun e => decide (incident current e)) with
        | [e] => walk start fuel (otherEnd current e) (unvisited.erase e) (path ++ [e.prim])
        | _ => .failed path.length unvisited

/-- Modelled from the spec: the outer loop of `detect_loops` (§4.3
step 3): repeatedly pick the first unvisited edge, walk from it, and
collect either a closed loop or a discard count.  `fuel` bounds the
number of walks; each walk consumes at least its starting edge, so any
`fuel ≥ edges.length` is exact. -/
def detectLoopsGo : ℕ → List Edge → List (List Primitive) × ℕ
  | _, [] => ([], 0)
  | 0, edges => ([], edges.length)
  | fuel + 1, e :: rest =>
      match walk e.v1 (rest.length + 1) (otherEnd e.v1 e) rest [e.prim] with
      | .closed path unvis =>
          let r := detectLoopsGo fuel unvis
          (path :: r.1, r.2)
      | .failed d unvis =>
          let r := detectLoopsGo fuel unvis
          (r.1, d + r.2)

/-- The graph edge contributed by one primitive. -/
def toEdge (snap_eps : ℚ) (p : Primitive) : Edge :=
  Edge.mk (endpointsOf snap_eps p).1 (endpointsOf snap_eps p).2 p

/-- Modelled from the spec: `detect_loops(primitives) ->
(loops, discarded_count)` (§4.3); `loop_detector.py` is not in the
excerpt.  Endpoints are canonicalized by snap-bucketing at `SNAP_EPS`,
the primitives become the edges of an undirected multigraph, and walks
extract closed loops in insertion order while abortive walks are
counted as discarded. -/
def detect_loops (snap_eps : ℚ) (primitives : List Primitive) :
    List (List Primitive) × ℕ :=
  detectLoopsGo primitives.length (primitives.map (toEdge snap_eps))

/-- A detected loop: ordered cyclic sequence of primitives (§3). -/
abbrev Loop := List Primitive

/-- An approximated polygon: ordered point sequence (§3). -/
abbrev Polygon := List Point

/-- Zone kinds (§3). -/
inductive ZoneKind where
  | simple
  | ring
  | multiHole
  deriving DecidableEq, Repr

/-- A classified zone: outline loop, hole loops, kind (§3). -/
structure Zone where
  outline : Loop
  holes : List Loop
  kind : ZoneKind
  deriving DecidableEq, Repr

/-- Modelled from the spec: root classification of the containment
forest (§4.4 step 5): zero children → `Simple`, exactly one → `Ring`,
more than one → `MultiHole`. -/
def classifyKind (numChildren : ℕ) : ZoneKind :=
  if numChildren = 0 then .simple
  else if numChildren = 1 then .ring
  else .multiHole

/-- Zone constructed for one root loop with its direct children as
holes. -/
def mkZone (outline : Loop) (children : List Loop) : Zone :=
  ⟨outline, children, classifyKind children.length⟩

/-- Modelled from the spec: twice the shoelace signed area of a polygon
halved (§4.4 step 2). -/
def signedArea (pts : Polygon) : ℚ :=
  ((List.range pts.length).map fun i =>
    let p := pts.getD i default
    let q := pts.getD ((i + 1) % pts.length) default
    p.x * q.y - q.x * p.y).sum / 2

/-- Modelled from the spec: crossing-number point-in-polygon test (§4.4
step 3): a ray to the right of `pt` toggles on every crossed edge. -/
def pointInPolygon (pt : Point) (poly : Polygon) : Bool :=
  (List.range poly.length).foldl
    (fun inside i =>
      let a := poly.getD i default
      let b := poly.getD ((i + 1) % poly.length) default
      if (decide (pt.y < a.y) != decide (pt.y < b.y)) &&
          decide (pt.x < (b.x - a.x) * (pt.y - a.y) / (b.y - a.y) + a.x) then
        !inside
      else inside)
    false

/-- Modelled from the spec: `contains(A, B)` (§4.4 step 3): every
vertex of B inside A, and A's absolute area larger than B's. -/
def polyContains (a b : Polygon) : Bool :=
  b.all (fun v => pointInPolygon v a) && decide (|signedArea b| < |signedArea a|)

/-- Flatten one loop to its approximated polygon (§4.4 step 1):
approximate every primitive and concatenate in traversal order. -/
def loopPolygon (area_eps : ℚ) (curveSample : Primitive → List Point) (l : Loop) : Polygon :=
  l.flatMap fun p => (approximate area_eps curveSample p).1

/-- Modelled from the spec: the tightest enclosing parent of loop `j`
among `n` candidate polygon indices (§4.4 step 4): the smallest-area
loop containing it, `none` for roots. -/
def parentOf (n : ℕ) (poly : ℕ → Polygon) (j : ℕ) : Option ℕ :=
  (List.range n).foldl
    (fun best i =>
      if i ≠ j ∧ polyContains (poly i) (poly j) then
        match best with
        | none => some i
        | some b => if |signedArea (poly i)| < |signedArea (poly b)| then some i else some b
      else best)
    none

/-- Modelled from the spec: `classify(loops, arc_approximator) ->
(simple_zones, ring_zones, multi_hole_zones)` (§4.4); `ring_finder.py`
is not in the excerpt.  Degenerate loops (absolute area below
`AREA_EPS`) are discarded, each remaining loop's parent is its tightest
enclosing loop, roots become zones whose holes are their direct
children, and the zones are split by kind. -/
def classify (area_eps : ℚ) (curveSample : Primitive → List Point)
    (loops : List Loop) : List Zone × List Zone × List Zone :=
  let kept := loops.filter fun l =>
    decide (area_eps ≤ |signedArea (loopPolygon area_eps curveSample l)|)
  let n := kept.length
  let poly : ℕ → Polygon := fun i => loopPolygon area_eps curveSample (kept.getD i [])
  let parent : ℕ → Option ℕ := parentOf n poly
  let roots := (List.range n).filter fun i => decide (parent i = none)
  let childrenOf : ℕ → List Loop := fun i =>
    ((List.range n).filter fun j => decide (parent j = some i)).map fun j => kept.getD j []
  let zones := roots.map fun i => mkZone (kept.getD i []) (childrenOf i)
  (zones.filter (fun z => decide (z.kind = .simple)),
   zones.filter (fun z => decide (z.kind = .ring)),
   zones.filter (fun z => decide (z.kind = .multiHole)))

/-- Abstract error value standing for a Python exception. -/
inductive Err where
  | importFailure
  | apiFailure (code : ℕ)
  deriving DecidableEq, Repr

/-- Outcome of the zone-selection dialog: cancelled, or confirmed with
the zones the user ticked. -/
inductive DialogResult where
  | cancelled
  | confirmed (selected : List Zone)
  deriving DecidableEq, Repr

/-- Environment of one invocation of `create_zones.main`: the outcome
of every call that can raise, in program order.  `Except.error` means
that call raised. -/
structure MainEnv where
  wxImport : Except Err Unit
  kipyImport : Except Err Unit
  geomImport : Except Err Unit
  connect : Except Err Unit
  extract : Except Err (List Primitive)
  detect : Except Err (List Loop)
  findZones : Except Err (List Zone × List Zone × List Zone)
  dialogImport : Except Err Unit
  showDialog : Except Err DialogResult
  createZones : Except Err ℕ

/-- Body of the `try` block of `create_zones.main` (lines 166-273): a
failed `wx` or `kipy` import is handled locally (`show_dependency_error`
then `return 1`), each empty intermediate result returns 0 with a
message, and any other raise escapes the body as `Except.error`. -/
def createZonesBody (env : MainEnv) : Except Err Int :=
  match env.wxImport with
  | .error _ => .ok 1
  | .ok _ =>
    match env.kipyImport with
    | .error _ => .ok 1
    | .ok _ =>
      match env.geomImport with
      | .error e => .error e
      | .ok _ =>
        match env.connect with
        | .error e => .error e
        | .ok _ =>
          match env.extract with
          | .error e => .error e
          | .ok primitives =>
            if primitives.isEmpty then .ok 0
            else
              match env.detect with
              | .error e => .error e
              | .ok loops =>
                if loops.isEmpty then .ok 0
                else
                  match env.findZones with
                  | .error e => .error e
                  | .ok (s, r, m) =>
                    if s.length + r.length + m.length = 0 then .ok 0
                    else
                      match env.dialogImport with
                      | .error e => .error e
                      | .ok _ =>
                        match env.showDialog with
                        | .error e => .error e
                        | .ok .cancelled => .ok 0
                        | .ok (.confirmed selected) =>
                          if selected.isEmpty then .ok 0
                          else
                            match env.createZones with
                            | .error e => .error e
                            | .ok _ => .ok 0

/-- `create_zones.main` (lines 158-287): run the body; the outer
`except Exception` converts any escaped raise into return code 1. -/
def createZonesMain (env : MainEnv) : Int :=
  match createZonesBody env with
  | .ok code => code
  | .error _ => 1

/-- Environment of one invocation of `main.run`, in program order. -/
structure RunEnv where
  kipyImport : Except Err Unit
  kicadImport : Except Err Unit
  connect : Except Err Unit
  geomImport : Except Err Unit
  extract : Except Err (List Primitive)
  detect : Except Err (List Loop)
  findZones : Except Err (List Zone × List Zone × List Zone)
  wxImport : Except Err Unit
  showDialog : Except Err DialogResult
  createZones : Except Err ℕ

/-- The part of `main.run`'s `try` block following the `kipy`/`kicad`
fallback (lines 43-115): connect, pull in the geometry modules,
extract, detect, classify, then the dialog phase; each empty
intermediate result returns early with a warning. -/
def runBodyAfterImports (env : RunEnv) : Except Err Unit :=
  match env.connect with
  | .error e => .error e
  | .ok _ =>
    match env.geomImport with
    | .error e => .error e
    | .ok _ =>
      match env.extract with
      | .error e => .error e
      | .ok primitives =>
        if primitives.isEmpty then .ok ()
        else
          match env.detect with
          | .error e => .error e
          | .ok loops =>
            if loops.isEmpty then .ok ()
            else
              match env.findZones with
              | .error e => .error e
              | .ok (s, r, m) =>
                if s.length + r.length + m.length = 0 then .ok ()
                else
                  match env.wxImport with
                  | .error e => .error e
                  | .ok _ =>
                    match env.showDialog with
                    | .error e => .error e
                    | .ok .cancelled => .ok ()
                    | .ok (.confirmed selected) =>
                      if selected.isEmpty then .ok ()
                      else
                        match env.createZones with
                        | .error e => .error e
                        | .ok _ => .ok ()

/-- Body of the `try` block of `main.run` (lines 30-115): a failed
`kipy` import falls back to the `kicad` module; if that import also
fails, the error is re-raised. -/
def runBody (env : RunEnv) : Except Err Unit :=
  match env.kipyImport with
  | .ok _ => runBodyAfterImports env
  | .error _ =>
    match env.kicadImport with
    | .error e => .error e
    | .ok _ => runBodyAfterImports env

/-- `main.run` (lines 26-119): the `except Exception` handler logs the
exception and then re-raises it (`raise`), so an escaped error
propagates to `run`'s caller unchanged. -/
def run (env : RunEnv) : Except Err Unit :=
  match runBody env with
  | .ok u => .ok u
  | .error e => .error e

/-- Start point of a primitive (a circle has none; its center stands
in, unused by the rectangle chains these predicates describe). -/
def segStart : Primitive → Point
  | .lineSegment s _ => s
  | .arc s _ _ => s
  | .bezier s _ _ _ => s
  | .circle c _ => c

/-- End point of a primitive. -/
def segEnd : Primitive → Point
  | .lineSegment _ e => e
  | .arc _ _ e => e
  | .bezier _ _ _ e => e
  | .circle c _ => c

/-- A primitive list forms an exactly closed chain: each element's end
point equals the next element's start point, cyclically, with exact
coordinate equality. -/
def closedChain (l : List Primitive) : Prop :=
  ∀ i, i < l.length →
    segEnd (l.getD i default) = segStart (l.getD ((i + 1) % l.length) default)

/-- No two list elements share a dedupe key. -/
def distinctKeys (l : List Primitive) : Prop :=
  l.Pairwise fun p q => primitive_key p ≠ primitive_key q

/-- Conservation measure of one walk: primitives accounted for (loop
length or discard count) plus edges still unvisited. -/
def walkInv (baseline : ℕ) : WalkResult → Prop
  | .closed p u => p.length + u.length = baseline
  | .failed d u => d + u.length = baseline

/-- Lower bound on the length of a closed walk's loop. -/
def walkMin (k : ℕ) : WalkResult → Prop
  | .closed p _ => k ≤ p.length
  | .failed _ _ => True

/-- Demo square loop (10 × 10 mm, §8 scenario 1) used by witnesses. -/
def squareLoopDemo : Loop :=
  [.lineSegment ⟨0, 0⟩ ⟨10, 0⟩, .lineSegment ⟨10, 0⟩ ⟨10, 10⟩,
   .lineSegment ⟨10, 10⟩ ⟨0, 10⟩, .lineSegment ⟨0, 10⟩ ⟨0, 0⟩]

/-- Demo segment and its reversal. -/
def segABDemo : Primitive := .lineSegment ⟨0, 0⟩ ⟨1, 0⟩

def segBADemo : Primitive := .lineSegment ⟨1, 0⟩ ⟨0, 0⟩

/-- Environment in which every external call succeeds and the
selection is empty. -/
def okMainEnv : MainEnv :=
  { wxImport := .ok (), kipyImport := .ok (), geomImport := .ok (),
    connect := .ok (), extract := .ok [], detect := .ok [],
    findZones := .ok ([], [], []), dialogImport := .ok (),
    showDialog := .ok .cancelled, createZones := .ok 0 }

def okRunEnv : RunEnv :=
  { kipyImport := .ok (), kicadImport := .ok (), connect := .ok (),
    geomImport := .ok (), extract := .ok [], detect := .ok [],
    findZones := .ok ([], [], []), wxImport := .ok (),
    showDialog := .ok .cancelled, createZones := .ok 0 }

/-- Environments whose board connection raises. -/
def failMainEnv : MainEnv := { okMainEnv with connect := .error (.apiFailure 0) }

def failRunEnv : RunEnv := { okRunEnv with connect := .error (.apiFailure 0) }

/-! ## Theorems -/

/-- C7: the extractor delivers millimeter coordinates: for every IPC
vector with integer nanometer coordinates, `_vector_to_point` returns
`Point(x / 1_000_000, y / 1_000_000)`, i.e. `_nm_to_mm` divides every
coordinate by exactly one million. -/
theorem nm_conversion_divides_by_million (v : Vec2) (n : ℤ) :
    vector_to_point v = ⟨(v.x : ℚ) / 1000000, (v.y : ℚ) / 1000000⟩ ∧
    nm_to_mm n * 1000000 = (n : ℚ) := by
  refine ⟨rfl, ?_⟩
  unfold nm_to_mm
  rw [div_mul_cancel₀]
  norm_num

/-- C1: when the extracted primitive set is empty, both entry points
return normally and without signalling an error: `create_zones.main`
returns 0 and `main.run` returns (no exception escapes). -/
theorem empty_selection_returns_cleanly (menv : MainEnv) (renv : RunEnv)
    (hw : menv.wxImport = .ok ()) (hk : menv.kipyImport = .ok ())
    (hg : menv.geomImport = .ok ()) (hc : menv.connect = .ok ())
    (he : menv.extract = .ok [])
    (hk2 : renv.kipyImport = .ok ()) (hc2 : renv.connect = .ok ())
    (hg2 : renv.geomImport = .ok ()) (he2 : renv.extract = .ok []) :
    createZonesMain menv = 0 ∧ run renv = .ok () := by
  constructor
  · unfold createZonesMain createZonesBody
    rw [hw, hk, hg, hc, he]
    rfl
  · unfold run runBody runBodyAfterImports
    rw [hk2, hc2, hg2, he2]
    rfl

/-- Witness for C1: concrete environments with a successful empty
extraction. -/
theorem empty_selection_returns_cleanly_witness :
    createZonesMain okMainEnv = 0 ∧ run okRunEnv = .ok () :=
  empty_selection_returns_cleanly okMainEnv okRunEnv rfl rfl rfl rfl rfl rfl rfl rfl rfl

/-- C2 counterexample: `main.run` does propagate exceptions to its
caller: with a board connection that raises, `run` re-raises the
exception instead of converting it into a reported result. -/
theorem run_propagates_exception :
    run failRunEnv = .error (.apiFailure 0) := rfl

/-- C2 (amended): `create_zones.main` converts every exception that
escapes its body into return code 1, while `main.run` logs and then
re-raises: an error escaping its body propagates to the caller
unchanged. -/
theorem exception_handling_policy (menv : MainEnv) (renv : RunEnv) (e : Err) :
    (createZonesBody menv = .error e → createZonesMain menv = 1) ∧
    (runBody renv = .error e → run renv = .error e) := by
  constructor
  · intro h
    unfold createZonesMain
    rw [h]
  · intro h
    unfold run
    rw [h]

/-- Witness for C2: concrete failing environments. -/
theorem exception_handling_policy_witness :
    createZonesMain failMainEnv = 1 ∧ run failRunEnv = .error (.apiFailure 0) :=
  ⟨(exception_handling_policy failMainEnv failRunEnv (.apiFailure 0)).1 rfl,
   (exception_handling_policy failMainEnv failRunEnv (.apiFailure 0)).2 rfl⟩

/-- C3: an arc whose three points are collinear within `AREA_EPS` is
approximated as exactly the two-point polyline `[start, end]` with a
non-fatal `DegenerateArc` diagnostic; in particular
`Arc((0,0), (5,0), (10,0))` yields exactly `[(0,0), (10,0)]`. -/
theorem degenerate_arc_straight_segment (area_eps : ℚ) (h : 0 < area_eps)
    (curveSample : Primitive → List Point) (s m e : Point)
    (hcol : |arcDet s m e| ≤ area_eps) :
    approximate area_eps curveSample (.arc s m e) = ([s, e], [.degenerateArc]) ∧
    approximate area_eps curveSample (.arc ⟨0, 0⟩ ⟨5, 0⟩ ⟨10, 0⟩) =
      ([⟨0, 0⟩, ⟨10, 0⟩], [.degenerateArc]) := by
  constructor
  · simp only [approximate]
    rw [if_pos hcol]
  · have hd : arcDet ⟨0, 0⟩ ⟨5, 0⟩ ⟨10, 0⟩ = 0 := by norm_num [arcDet]
    simp only [approximate]
    rw [if_pos]
    rw [hd]
    simpa using h.le

/-- Witness for C3: a concrete collinear arc at tolerance 1. -/
theorem degenerate_arc_straight_segment_witness :
    approximate 1 (fun _ => []) (.arc ⟨0, 0⟩ ⟨0, 0⟩ ⟨0, 0⟩) =
      ([⟨0, 0⟩, ⟨0, 0⟩], [.degenerateArc]) ∧
    approximate 1 (fun _ => []) (.arc ⟨0, 0⟩ ⟨5, 0⟩ ⟨10, 0⟩) =
      ([⟨0, 0⟩, ⟨10, 0⟩], [.degenerateArc]) :=
  degenerate_arc_straight_segment 1 (by norm_num) (fun _ => []) ⟨0, 0⟩ ⟨0, 0⟩ ⟨0, 0⟩
    (by norm_num [arcDet])

/-- C10: every segment `_contour_to_segments` emits differs between
start and end by more than `1e-6` in x or in y; consecutive points
within `1e-6` in both coordinates (including the wrap-around pair)
produce no segment, so no zero-length segment is ever emitted. -/
theorem contour_segments_nondegenerate (points : List Point) (p : Primitive)
    (hp : p ∈ contour_to_segments points) :
    ∃ a b, p = .lineSegment a b ∧
      ((1 : ℚ) / 1000000 < |a.x - b.x| ∨ (1 : ℚ) / 1000000 < |a.y - b.y|) := by
  unfold contour_to_segments at hp
  rw [List.mem_filterMap] at hp
  obtain ⟨i, _, hfi⟩ := hp
  dsimp only at hfi
  split at hfi
  · rename_i hcond
    obtain rfl := Option.some.inj hfi
    exact ⟨_, _, rfl, hcond⟩
  · exact absurd hfi (by simp)

/-- Witness for C10: a contour with one coincident consecutive pair. -/
theorem contour_segments_nondegenerate_witness :
    ∃ a b, Primitive.lineSegment ⟨0, 0⟩ ⟨1, 0⟩ = .lineSegment a b ∧
      ((1 : ℚ) / 1000000 < |a.x - b.x| ∨ (1 : ℚ) / 1000000 < |a.y - b.y|) :=
  contour_segments_nondegenerate [⟨0, 0⟩, ⟨0, 0⟩, ⟨1, 0⟩]
    (.lineSegment ⟨0, 0⟩ ⟨1, 0⟩)
    (by
      unfold contour_to_segments
      rw [List.mem_filterMap]
      refine ⟨1, by decide, ?_⟩
      rw [show ([(⟨0, 0⟩ : Point), ⟨0, 0⟩, ⟨1, 0⟩] : List Point).length = 3 from rfl]
      norm_num [List.getD])

/-- C6: every element of the list returned by
`extract_from_selection`, including primitives recovered via the
textual selection-string fallback, is one of the four canonical
variants `LineSegment`, `Arc`, `Circle`, `Bezier`. -/
theorem extract_from_selection_closed_union (sq : ℚ → ℚ) (items : List Item)
    (exprs : List GrExpr) (p : Primitive)
    (_hp : p ∈ extract_from_selection sq items exprs) :
    (∃ a b, p = .lineSegment a b) ∨ (∃ a m b, p = .arc a m b) ∨
    (∃ c r, p = .circle c r) ∨ (∃ a c1 c2 b, p = .bezier a c1 c2 b) := by
  cases p with
  | lineSegment a b => exact .inl ⟨a, b, rfl⟩
  | arc a m b => exact .inr (.inl ⟨a, m, b, rfl⟩)
  | circle c r => exact .inr (.inr (.inl ⟨c, r, rfl⟩))
  | bezier a c1 c2 b => exact .inr (.inr (.inr ⟨a, c1, c2, b, rfl⟩))

/-- Witness for C6: a primitive recovered from the selection-string
fallback of an empty IPC selection. -/
theorem extract_from_selection_closed_union_witness :
    (∃ a b, Primitive.lineSegment ⟨0, 0⟩ ⟨1, 0⟩ = .lineSegment a b) ∨
    (∃ a m b, Primitive.lineSegment ⟨0, 0⟩ ⟨1, 0⟩ = .arc a m b) ∨
    (∃ c r, Primitive.lineSegment ⟨0, 0⟩ ⟨1, 0⟩ = .circle c r) ∨
    (∃ a c1 c2 b, Primitive.lineSegment ⟨0, 0⟩ ⟨1, 0⟩ = .bezier a c1 c2 b) :=
  extract_from_selection_closed_union id []
    [.grLine (some ⟨0, 0⟩) (some ⟨1, 0⟩)] (.lineSegment ⟨0, 0⟩ ⟨1, 0⟩) (by decide)

/-- C8: `_extract_rectangle`, and likewise the `gr_rect` branch of
`_parse_gr_expression` after normalizing the two corners with
componentwise min/max, returns exactly four line segments forming an
exactly closed chain: each segment's end equals the next segment's
start, and the fourth segment's end equals the first segment's start,
with exact coordinate equality. -/
theorem rectangle_forms_closed_chain (tl br s e : Point) (sq : ℚ → ℚ) :
    ((extract_rectangle tl br).length = 4 ∧
      (∀ p ∈ extract_rectangle tl br, ∃ a b, p = .lineSegment a b) ∧
      closedChain (extract_rectangle tl br)) ∧
    ((parse_gr_expression sq (.grRect (some s) (some e))).length = 4 ∧
      (∀ p ∈ parse_gr_expression sq (.grRect (some s) (some e)),
        ∃ a b, p = .lineSegment a b) ∧
      closedChain (parse_gr_expression sq (.grRect (some s) (some e)))) := by
  constructor
  · refine ⟨rfl, ?_, ?_⟩
    · intro p hp
      simp only [extract_rectangle, List.mem_cons, List.not_mem_nil, or_false] at hp
      rcases hp with h | h | h | h <;> exact ⟨_, _, h⟩
    · intro i hi
      rw [show (extract_rectangle tl br).length = 4 from rfl] at hi ⊢
      interval_cases i <;> rfl
  · refine ⟨rfl, ?_, ?_⟩
    · intro p hp
      simp only [parse_gr_expression, List.mem_cons, List.not_mem_nil, or_false] at hp
      rcases hp with h | h | h | h <;> exact ⟨_, _, h⟩
    · intro i hi
      rw [show (parse_gr_expression sq (.grRect (some s) (some e))).length = 4 from rfl] at hi ⊢
      interval_cases i <;> rfl

/-- Witness for C8: concrete corners. -/
theorem rectangle_forms_closed_chain_witness :
    ((extract_rectangle ⟨0, 0⟩ ⟨10, 10⟩).length = 4 ∧
      (∀ p ∈ extract_rectangle ⟨0, 0⟩ ⟨10, 10⟩, ∃ a b, p = .lineSegment a b) ∧
      closedChain (extract_rectangle ⟨0, 0⟩ ⟨10, 10⟩)) ∧
    ((parse_gr_expression id (.grRect (some ⟨3, 4⟩) (some ⟨1, 2⟩))).length = 4 ∧
      (∀ p ∈ parse_gr_expression id (.grRect (some ⟨3, 4⟩) (some ⟨1, 2⟩)),
        ∃ a b, p = .lineSegment a b) ∧
      closedChain (parse_gr_expression id (.grRect (some ⟨3, 4⟩) (some ⟨1, 2⟩)))) :=
  rectangle_forms_closed_chain ⟨0, 0⟩ ⟨10, 10⟩ ⟨3, 4⟩ ⟨1, 2⟩ id

/-- Sorting two endpoint tuples is order-insensitive. -/
theorem sortPair_comm (a b : ℤ × ℤ) : sortPair a b = sortPair b a := by
  obtain ⟨a1, a2⟩ := a
  obtain ⟨b1, b2⟩ := b
  unfold sortPair lexLe
  dsimp only
  split <;> split <;> rename_i h1 h2
  · simp only [Prod.mk.injEq]
    omega
  · rfl
  · rfl
  · exfalso
    omega

/-- A line segment and its reversal share one dedupe key. -/
theorem primitive_key_line_comm (a b : Point) :
    primitive_key (.lineSegment a b) = primitive_key (.lineSegment b a) := by
  dsimp only [primitive_key]
  rw [sortPair_comm]

/-- One merge step never introduces a duplicated key. -/
theorem merge_step_distinctKeys (base : List Primitive) (p : Primitive)
    (h : distinctKeys base) :
    distinctKeys
      (if base.any (fun q => decide (primitive_key q = primitive_key p)) then base
       else base ++ [p]) := by
  split
  · exact h
  · rename_i hany
    rw [distinctKeys, List.pairwise_append]
    refine ⟨h, List.pairwise_singleton _ _, ?_⟩
    intro x hx y hy
    simp only [List.mem_singleton] at hy
    subst hy
    intro hk
    exact hany (List.any_eq_true.mpr ⟨x, hx, by simp [hk]⟩)

/-- Merging preserves key-distinctness of the accumulated list. -/
theorem merge_preserves_distinctKeys (extra : List Primitive) :
    ∀ base, distinctKeys base →
      distinctKeys (merge_primitives_without_duplicates base extra) := by
  induction extra with
  | nil => exact fun _ h => h
  | cons p t ih =>
      intro base h
      exact ih _ (merge_step_distinctKeys base p h)

/-- Folding the dedupe step over primitives already present changes
nothing. -/
theorem foldl_dedupe_absorb (base : List Primitive) :
    ∀ l : List Primitive, (∀ p ∈ l, p ∈ base) →
      l.foldl
        (fun merged p =>
          if merged.any (fun q => decide (primitive_key q = primitive_key p)) then merged
          else merged ++ [p])
        base = base := by
  intro l
  induction l with
  | nil => intro _; rfl
  | cons p t ih =>
      intro h
      have hp : p ∈ base := h p (List.mem_cons_self p t)
      have hany : base.any (fun q => decide (primitive_key q = primitive_key p)) = true :=
        List.any_eq_true.mpr ⟨p, hp, by simp⟩
      rw [List.foldl_cons, if_pos hany]
      exact ih fun q hq => h q (List.mem_cons_of_mem p hq)

/-- C9 counterexample: with a base list that already contains a
segment and its reversal, `_merge_primitives_without_duplicates`
returns a list with two elements of equal dedupe key: duplicates
inside `base` are never removed. -/
theorem merge_keeps_duplicate_keys_counterexample :
    ¬ distinctKeys (merge_primitives_without_duplicates [segABDemo, segBADemo] []) := by
  intro h
  have h' : distinctKeys [segABDemo, segBADemo] := h
  rw [distinctKeys, List.pairwise_cons] at h'
  exact h'.1 segBADemo (List.mem_cons_self _ _) (primitive_key_line_comm ⟨0, 0⟩ ⟨1, 0⟩)

/-- C9 (amended): an element of `extra` is appended only when its key
is absent from the list accumulated so far, so whenever `base` itself
has pairwise-distinct keys (in particular in the final dedupe pass with
`base = []`) the merged result has pairwise-distinct keys; a
`LineSegment`'s key is direction-independent, so a segment and its
reversal are never both added from `extra`; and merging a list with
itself returns that list unchanged.  (Duplicate keys already inside
`base` are kept — the unrestricted claim fails, see the
counterexample.) -/
theorem merge_dedupe_keys (base extra : List Primitive) (a b : Point)
    (h : distinctKeys base) :
    distinctKeys (merge_primitives_without_duplicates base extra) ∧
    primitive_key (Primitive.lineSegment a b) = primitive_key (.lineSegment b a) ∧
    merge_primitives_without_duplicates base base = base :=
  ⟨merge_preserves_distinctKeys extra base h, primitive_key_line_comm a b,
   foldl_dedupe_absorb base base fun _ hp => hp⟩

/-- Witness for C9: concrete lists. -/
theorem merge_dedupe_keys_witness :
    distinctKeys (merge_primitives_without_duplicates [segABDemo] [segBADemo]) ∧
    primitive_key (Primitive.lineSegment ⟨0, 0⟩ ⟨1, 0⟩) =
      primitive_key (.lineSegment ⟨1, 0⟩ ⟨0, 0⟩) ∧
    merge_primitives_without_duplicates [segABDemo] [segABDemo] = [segABDemo] :=
  merge_dedupe_keys [segABDemo] [segBADemo] ⟨0, 0⟩ ⟨1, 0⟩ (by simp [distinctKeys])

/-- The loop-length bound is antitone in its threshold. -/
theorem walkMin_mono {k k' : ℕ} (h : k ≤ k') :
    ∀ r, walkMin k' r → walkMin k r := by
  intro r
  cases r with
  | closed p u => exact fun h2 => le_trans h h2
  | failed d u => exact fun _ => trivial

/-- Each walk conserves the primitive count: the loop it closes (or
the primitives it discards) together with the edges left unvisited
account exactly for the path so far plus the unvisited edges, and a
closed loop is at least as long as the path already traversed. -/
theorem walk_spec (start : ℤ × ℤ) (fuel : ℕ) :
    ∀ (current : ℤ × ℤ) (unvisited : List Edge) (path : List Primitive),
      walkInv (path.length + unvisited.length) (walk start fuel current unvisited path) ∧
      walkMin path.length (walk start fuel current unvisited path) := by
  induction fuel with
  | zero =>
      intro current unvisited path
      simp only [walk]
      split
      · exact ⟨rfl, le_refl _⟩
      · exact ⟨rfl, trivial⟩
  | succ n ih =>
      intro current unvisited path
      simp only [walk]
      split
      · exact ⟨rfl, le_refl _⟩
      · cases hf : unvisited.filter (fun e => decide (incident current e)) with
        | nil => exact ⟨rfl, trivial⟩
        | cons e rest =>
            cases rest with
            | cons e2 rest2 => exact ⟨rfl, trivial⟩
            | nil =>
                have he : e ∈ unvisited := by
                  have hmem : e ∈ unvisited.filter (fun e => decide (incident current e)) := by
                    rw [hf]
                    exact List.mem_cons_self _ _
                  exact List.mem_of_mem_filter hmem
                have hlen : (unvisited.erase e).length = unvisited.length - 1 :=
                  List.length_erase_of_mem he
                have hpos : 0 < unvisited.length := List.length_pos_of_mem he
                obtain ⟨h1, h2⟩ := ih (otherEnd current e) (unvisited.erase e) (path ++ [e.prim])
                refine ⟨?_, walkMin_mono (by simp) _ h2⟩
                have hbase : (path ++ [e.prim]).length + (unvisited.erase e).length
                    = path.length + unvisited.length := by
                  rw [List.length_append, hlen]
                  simp only [List.length_singleton]
                  omega
                rw [hbase] at h1
                exact h1

/-- The outer loop of the detector conserves the primitive count: loop
lengths plus the discarded count add up to the number of edges, and
every collected loop is nonempty. -/
theorem detectLoopsGo_spec (fuel : ℕ) :
    ∀ edges : List Edge,
      ((detectLoopsGo fuel edges).1.map List.length).sum + (detectLoopsGo fuel edges).2
          = edges.length ∧
      ∀ l ∈ (detectLoopsGo fuel edges).1, 1 ≤ l.length := by
  induction fuel with
  | zero =>
      intro edges
      cases edges with
      | nil => simp [detectLoopsGo]
      | cons e rest => simp [detectLoopsGo]
  | succ n ih =>
      intro edges
      cases edges with
      | nil => simp [detectLoopsGo]
      | cons e rest =>
          have hspec := walk_spec e.v1 (rest.length + 1) (otherEnd e.v1 e) rest [e.prim]
          simp only [detectLoopsGo]
          cases hw : walk e.v1 (rest.length + 1) (otherEnd e.v1 e) rest [e.prim] with
          | closed path unvis =>
              rw [hw] at hspec
              have h1 : path.length + unvis.length = 1 + rest.length := hspec.1
              have h2 : 1 ≤ path.length := hspec.2
              obtain ⟨ih1, ih2⟩ := ih unvis
              constructor
              · simp only [List.map_cons, List.sum_cons, List.length_cons]
                omega
              · intro l hl
                simp only [List.mem_cons] at hl
                rcases hl with rfl | hl
                · exact h2
                · exact ih2 l hl
          | failed d unvis =>
              rw [hw] at hspec
              have h1 : d + unvis.length = 1 + rest.length := hspec.1
              obtain ⟨ih1, ih2⟩ := ih unvis
              constructor
              · simp only [List.length_cons]
                omega
              · exact ih2

/-- C4: `detect_loops(primitives)` returns the pair
`(loops, discarded_count)`: the loop lengths and the discarded count
partition the primitive collection exactly (so the loops are disjoint
and every primitive is either in exactly one closed loop or counted as
discarded), and every returned loop is nonempty; loops are collected in
insertion order of the walk that closed them. -/
theorem detect_loops_partitions (snap_eps : ℚ) (primitives : List Primitive) :
    ((detect_loops snap_eps primitives).1.map List.length).sum
        + (detect_loops snap_eps primitives).2 = primitives.length ∧
    ∀ l ∈ (detect_loops snap_eps primitives).1, 1 ≤ l.length := by
  unfold detect_loops
  have h := detectLoopsGo_spec primitives.length (primitives.map (toEdge snap_eps))
  rw [List.length_map] at h
  exact h

/-- Witness for C4: the 10 × 10 square (spec §8 scenario 1). -/
theorem detect_loops_partitions_witness :
    ((detect_loops (1 / 1000000) squareLoopDemo).1.map List.length).sum
        + (detect_loops (1 / 1000000) squareLoopDemo).2 = squareLoopDemo.length ∧
    ∀ l ∈ (detect_loops (1 / 1000000) squareLoopDemo).1, 1 ≤ l.length :=
  detect_loops_partitions (1 / 1000000) squareLoopDemo

/-- The kind computed from a child count characterizes that count. -/
theorem classifyKind_characterizes (k : ℕ) :
    (k = 0 ↔ classifyKind k = .simple) ∧ (k = 1 ↔ classifyKind k = .ring) ∧
    (1 < k ↔ classifyKind k = .multiHole) := by
  unfold classifyKind
  rcases Nat.lt_or_ge k 2 with h | h
  · interval_cases k <;> simp
  · rw [if_neg (by omega), if_neg (by omega)]
    simp only [iff_true]
    refine ⟨by simp; omega, by simp; omega, by omega⟩

/-- Every zone built from a root and its children satisfies the
holes/kind invariant. -/
theorem mkZone_invariant (o : Loop) (c : List Loop) :
    ((mkZone o c).holes = [] ↔ (mkZone o c).kind = .simple) ∧
    ((mkZone o c).holes.length = 1 ↔ (mkZone o c).kind = .ring) ∧
    (1 < (mkZone o c).holes.length ↔ (mkZone o c).kind = .multiHole) := by
  have h := classifyKind_characterizes c.length
  exact ⟨(List.length_eq_zero.symm).trans h.1, h.2.1, h.2.2⟩

/-- C5: every zone produced by classification satisfies: `holes` is
empty iff `kind = Simple`; `holes` has exactly one element iff
`kind = Ring`; `holes` has more than one element iff
`kind = MultiHole`. -/
theorem zone_holes_kind_invariant (area_eps : ℚ)
    (curveSample : Primitive → List Point) (loops : List Loop) (z : Zone)
    (hz : z ∈ (classify area_eps curveSample loops).1 ∨
          z ∈ (classify area_eps curveSample loops).2.1 ∨
          z ∈ (classify area_eps curveSample loops).2.2) :
    (z.holes = [] ↔ z.kind = .simple) ∧
    (z.holes.length = 1 ↔ z.kind = .ring) ∧
    (1 < z.holes.length ↔ z.kind = .multiHole) := by
  have hz' : ∃ outline children, z = mkZone outline children := by
    unfold classify at hz
    rcases hz with hz | hz | hz
    all_goals
      obtain ⟨i, -, hi⟩ := List.mem_map.mp (List.mem_of_mem_filter hz)
      exact ⟨_, _, hi.symm⟩
  obtain ⟨o, c, rfl⟩ := hz'
  exact mkZone_invariant o c

/-- Witness for C5: the square loop classified as a single simple
zone. -/
theorem zone_holes_kind_invariant_witness :
    ((mkZone squareLoopDemo []).holes = [] ↔ (mkZone squareLoopDemo []).kind = .simple) ∧
    ((mkZone squareLoopDemo []).holes.length = 1 ↔ (mkZone squareLoopDemo []).kind = .ring) ∧
    (1 < (mkZone squareLoopDemo []).holes.length ↔
      (mkZone squareLoopDemo []).kind = .multiHole) :=
  zone_holes_kind_invariant (-1) (fun _ => []) [squareLoopDemo] (mkZone squareLoopDemo [])
    (Or.inl (by
      have habs : ∀ q : ℚ, decide ((-1 : ℚ) ≤ |q|) = true :=
        fun q => decide_eq_true (le_trans (by norm_num) (abs_nonneg q))
      simp [classify, parentOf, habs, List.range_succ, mkZone, classifyKind]))

end ZoneHelper
